import Mathlib

set_option maxHeartbeats 1000000

/-!
Shallow embedding of the jump-mode tagging engine of the `amp` editor
(`src/models/application/modes/jump/mod.rs`) together with the
collaborators it relies on: the scribe buffer value types (`Position`,
`Distance`, `Token`, `Category`, `LineRange`), the whitespace sub-lexer
(`helpers::movement_lexer::lex`), and the two tag generators.  The
collaborators are not shipped in this snapshot's `src/`, so they are
modelled from the specification's description of their interfaces; the
orchestrator itself (`JumpMode::tokens`, `JumpMode::map_tag`,
`JumpMode::new`) is translated directly from the Rust source.
-/

/-- Buffer coordinate (scribe `Position`): zero-based line and offset. -/
structure Position where
  line : Nat
  offset : Nat
  deriving DecidableEq, Repr

/-- Modelled from the spec: scribe `Distance`, a line/offset delta used to
advance a running `Position` past a span of text; derived from counting
newlines and trailing-line length within the span. -/
structure Distance where
  lines : Nat
  offset : Nat
  deriving DecidableEq, Repr

/-- Token category (scribe `Category`). -/
inductive Category where
  | Keyword
  | Identifier
  | Text
  | Whitespace
  | Comment
  | String
  | Brace
  deriving DecidableEq, Repr

/-- Lexical token (scribe `Token`): a lexeme and its category. -/
structure Token where
  lexeme : String
  category : Category
  deriving DecidableEq, Repr

/-- Modelled from the spec: scribe `LineRange`, the visible viewport's line
span.  The source field `end` is a reserved word in Lean and is renamed
`stop`.  The convention pinned down by the repository's own
`tokens_only_adds_tags_to_visible_range` test is end-exclusive. -/
structure LineRange where
  start : Nat
  stop : Nat
  deriving DecidableEq, Repr

/-- Modelled from the spec: `LineRange::includes` answers "does this range
include line L", end-exclusive. -/
def LineRange.includes (r : LineRange) (line : Nat) : Bool :=
  r.start ≤ line && line < r.stop

/-- UTF-8 storage size of a single code point, as Rust counts it. -/
def charUtf8Size (c : Char) : Nat :=
  if c.toNat < 0x80 then 1
  else if c.toNat < 0x800 then 2
  else if c.toNat < 0x10000 then 3
  else 4

/-- Rust `str::len`: the UTF-8 byte length of a string (not its character
count). -/
def utf8Len (s : String) : Nat :=
  (s.data.map charUtf8Size).sum

/-- Length (in characters) of the text following the last newline of a
character list. -/
def trailingLineLen (l : List Char) : Nat :=
  l.foldl (fun acc c => if c = '\n' then 0 else acc + 1) 0

/-- Modelled from the spec: scribe `Distance::from_str` — counts the
newlines of the span, and the length of the text after the last newline. -/
def Distance.from_str (s : String) : Distance :=
  ⟨s.data.countP (fun c => c == '\n'), trailingLineLen s.data⟩

/-- Modelled from the spec: scribe `Position::add` — advancing past a
`Distance` rolls `line` forward by the distance's lines and, when at least
one newline was crossed, zeroes the offset before adding the trailing
offset (§9 pins this exact order). -/
def Position.add (p : Position) (d : Distance) : Position :=
  ⟨p.line + d.lines, if 0 < d.lines then d.offset else p.offset + d.offset⟩

/-- Modelled from the spec: the sub-lexer's run builder.  `ws` records the
character class (whitespace or not) of the run accumulated in `acc`
(reversed); each maximal run becomes one token, whitespace runs
categorized `Whitespace`, non-whitespace runs `Text`. -/
def lexGroup (ws : Bool) (acc : List Char) : List Char → List Token
  | [] => [⟨⟨acc.reverse⟩, if ws then Category.Whitespace else Category.Text⟩]
  | c :: cs =>
    if c.isWhitespace = ws then
      lexGroup ws (c :: acc) cs
    else
      ⟨⟨acc.reverse⟩, if ws then Category.Whitespace else Category.Text⟩ ::
        lexGroup c.isWhitespace [c] cs

/-- Modelled from the spec: `helpers::movement_lexer::lex` — splits a
lexeme into maximal whitespace / non-whitespace runs, losslessly. -/
def movementLex (s : String) : List Token :=
  match s.data with
  | [] => []
  | c :: cs => lexGroup c.isWhitespace [c] cs

/-- The fixed ordered alphabet both tag generators draw from. -/
def letters : List Char :=
  "abcdefghijklmnopqrstuvwxyz".data

/-- Modelled from the spec: the value stream of `TagGenerator` (the
multi-character generator), written with explicit fuel so it is
structurally recursive.  Index `n` below 676 yields the two-letter tag
"aa", "ab", …, "zz"; later indices extend the length, keeping the
sequence unbounded and repeat-free as §4.2 requires. -/
def tagOfIndexAux : Nat → Nat → List Char
  | 0, n => [letters.getD (n / 26) 'a', letters.getD (n % 26) 'a']
  | fuel + 1, n =>
    if n < 676 then
      [letters.getD (n / 26) 'a', letters.getD (n % 26) 'a']
    else
      'a' :: tagOfIndexAux fuel (n - 676)

/-- Modelled from the spec: the n-th tag returned by a fresh
`TagGenerator` (its `next` never exhausts). -/
def tagOfIndex (n : Nat) : String :=
  ⟨tagOfIndexAux n n⟩

/-- Modelled from the spec: the n-th answer of a fresh
`SingleCharacterTagGenerator`: one tag per letter of the fixed alphabet,
then exhaustion (`none`), as §4.3 requires. -/
def singleTag (n : Nat) : Option String :=
  if n < 26 then some ⟨[letters.getD n 'a']⟩ else none

/-- Modelled from the spec: the range-selection state consumed (never
inspected) by jump mode. -/
structure SelectMode where
  deriving DecidableEq, Repr

/-- Modelled from the spec: the line-selection state consumed (never
inspected) by jump mode. -/
structure SelectLineMode where
  deriving DecidableEq, Repr

/-- `SelectModeOptions`: what jump mode is being used for. -/
inductive SelectModeOptions where
  | None
  | Select (s : SelectMode)
  | SelectLine (s : SelectLineMode)
  deriving DecidableEq, Repr

/-- `JumpMode`: the orchestrator's persistent state. -/
structure JumpMode where
  input : String
  line_mode : Bool
  select_mode : SelectModeOptions
  tag_positions : List (String × Position)
  deriving DecidableEq, Repr

/-- The slice of the external buffer collaborator that `JumpMode::tokens`
reads: its token stream and its cursor. -/
structure Buffer where
  tokens : List Token
  cursor : Position
  deriving DecidableEq, Repr

/-- `HashMap::insert` on the association-list model of `tag_positions`:
the new binding shadows (replaces) any previous binding of the key. -/
def mapInsert (k : String) (v : Position) (m : List (String × Position)) :
    List (String × Position) :=
  (k, v) :: m.filter (fun e => e.1 != k)

/-- `HashMap::get` on the association-list model of `tag_positions`. -/
def mapLookup (k : String) : List (String × Position) → Option Position
  | [] => none
  | e :: rest => if e.1 = k then some e.2 else mapLookup k rest

/-- The mutable locals of one `JumpMode::tokens` pass: the running
position, both generators' cursors, the map being rebuilt, and the output
vector. -/
structure PassState where
  current_position : Position
  tagIdx : Nat
  singleIdx : Nat
  tag_positions : List (String × Position)
  jump_tokens : List Token
  deriving DecidableEq, Repr

/-- One iteration of the inner `for subtoken in subtokens` loop of
`JumpMode::tokens` (mod.rs lines 60–111), translated clause by clause:
whitespace advances by `Distance` and is emitted unchanged; otherwise a
tag is requested when the line is visible and — in line mode — at or past
the cursor's line, or — in anywhere mode — the lexeme's byte length
exceeds 1; a granted tag is emitted as a `Keyword` token followed by the
subtoken's characters after the first `tag.len()` of them as `Text`, and
recorded at the current position; an untagged subtoken is emitted with
the parent token's category; finally the offset advances by the
subtoken's byte length. -/
def processSubtoken (line_mode : Bool) (cursorLine : Nat)
    (visible_range : LineRange) (token : Token) (st : PassState)
    (subtoken : Token) : PassState :=
  if subtoken.category = Category.Whitespace then
    { st with
      current_position :=
        st.current_position.add (Distance.from_str subtoken.lexeme),
      jump_tokens := st.jump_tokens ++ [subtoken] }
  else
    let dec : Option String × Nat × Nat :=
      if visible_range.includes st.current_position.line = false then
        (none, st.tagIdx, st.singleIdx)
      else if line_mode then
        if cursorLine ≤ st.current_position.line then
          (singleTag st.singleIdx, st.tagIdx, st.singleIdx + 1)
        else
          (none, st.tagIdx, st.singleIdx)
      else
        if 1 < utf8Len subtoken.lexeme then
          (some (tagOfIndex st.tagIdx), st.tagIdx + 1, st.singleIdx)
        else
          (none, st.tagIdx, st.singleIdx)
    let emitted : List Token :=
      match dec.1 with
      | some tag =>
        [⟨tag, Category.Keyword⟩,
         ⟨⟨subtoken.lexeme.data.drop (utf8Len tag)⟩, Category.Text⟩]
      | none => [⟨subtoken.lexeme, token.category⟩]
    let tagged : List (String × Position) :=
      match dec.1 with
      | some tag => mapInsert tag st.current_position st.tag_positions
      | none => st.tag_positions
    { current_position :=
        ⟨st.current_position.line,
         st.current_position.offset + utf8Len subtoken.lexeme⟩,
      tagIdx := dec.2.1,
      singleIdx := dec.2.2,
      tag_positions := tagged,
      jump_tokens := st.jump_tokens ++ emitted }

/-- One iteration of the outer `for token in buffer.tokens()` loop: lex
the token on whitespace and fold the subtoken loop over the pieces. -/
def processToken (line_mode : Bool) (cursorLine : Nat)
    (visible_range : LineRange) (st : PassState) (token : Token) :
    PassState :=
  (movementLex token.lexeme).foldl
    (processSubtoken line_mode cursorLine visible_range token) st

/-- The locals' initial values: position `{0,0}`, both generators freshly
constructed, `tag_positions` cleared, empty output. -/
def initialPassState : PassState :=
  ⟨⟨0, 0⟩, 0, 0, [], []⟩

/-- What one `JumpMode::tokens` call produces: the returned display
tokens, the rebuilt `tag_positions` (written back into the orchestrator),
and — as an observation of the internal local — the final running
position. -/
structure PassResult where
  jump_tokens : List Token
  tag_positions : List (String × Position)
  current_position : Position
  deriving DecidableEq, Repr

/-- `JumpMode::tokens` (mod.rs lines 45–115): clear `tag_positions`,
restart both generators, walk the buffer's tokens through the sub-lexer
and the per-subtoken tagging decision, and return the display tokens. -/
def JumpMode.tokens (m : JumpMode) (buffer : Buffer)
    (visible_range : LineRange) : PassResult :=
  let final := buffer.tokens.foldl
    (processToken m.line_mode buffer.cursor.line visible_range)
    initialPassState
  ⟨final.jump_tokens, final.tag_positions, final.current_position⟩

/-- The write-back of a pass into the orchestrator's persistent state
(`&mut self` updating `self.tag_positions`). -/
def JumpMode.afterPass (m : JumpMode) (res : PassResult) : JumpMode :=
  { m with tag_positions := res.tag_positions }

/-- `JumpMode::map_tag` (mod.rs lines 117–119): pure lookup. -/
def JumpMode.map_tag (m : JumpMode) (tag : String) : Option Position :=
  mapLookup tag m.tag_positions

/-- `JumpMode::new` (mod.rs lines 28–35). -/
def JumpMode.new : JumpMode :=
  { input := ""
    line_mode := true
    select_mode := SelectModeOptions.None
    tag_positions := [] }

/-- Concatenation of the lexemes of a token list, as a character list. -/
def lexemeChars (ts : List Token) : List Char :=
  (ts.map (fun t => t.lexeme.data)).flatten

theorem lexemeChars_nil : lexemeChars [] = [] := rfl

theorem lexemeChars_cons (t : Token) (ts : List Token) :
    lexemeChars (t :: ts) = t.lexeme.data ++ lexemeChars ts := by
  simp [lexemeChars]

theorem lexemeChars_append (a b : List Token) :
    lexemeChars (a ++ b) = lexemeChars a ++ lexemeChars b := by
  simp [lexemeChars]

/-- A fold preserves any invariant its step preserves. -/
theorem foldl_inv {α β : Type} {f : β → α → β} {P : β → Prop}
    (hstep : ∀ st a, P st → P (f st a)) :
    ∀ (l : List α) (st : β), P st → P (l.foldl f st) := by
  intro l
  induction l with
  | nil => intro st h; exact h
  | cons a t ih => intro st h; exact ih (f st a) (hstep st a h)

/-- The sub-lexer's run builder is lossless: its output concatenates back
to the pending run followed by the remaining input. -/
theorem lexGroup_chars (l : List Char) :
    ∀ (ws : Bool) (acc : List Char),
      lexemeChars (lexGroup ws acc l) = acc.reverse ++ l := by
  induction l with
  | nil => intro ws acc; simp [lexGroup, lexemeChars]
  | cons c cs ih =>
    intro ws acc
    by_cases h : c.isWhitespace = ws
    · rw [lexGroup, if_pos h, ih]
      simp
    · rw [lexGroup, if_neg h, lexemeChars_cons, ih]
      simp

/-- Sub-lexer round trip: concatenating the sub-tokens' lexemes
reproduces the original lexeme (§4.1). -/
theorem movementLex_chars (s : String) :
    lexemeChars (movementLex s) = s.data := by
  unfold movementLex
  cases hs : s.data with
  | nil => rfl
  | cons c cs => rw [lexGroup_chars]; rfl

/-- On an all-non-whitespace run the sub-lexer keeps one piece. -/
theorem lexGroup_nonWs (l : List Char) :
    ∀ (acc : List Char), (∀ c ∈ l, c.isWhitespace = false) →
      lexGroup false acc l = [⟨⟨acc.reverse ++ l⟩, Category.Text⟩] := by
  induction l with
  | nil => intro acc _; simp [lexGroup]
  | cons c cs ih =>
    intro acc h
    have hc : c.isWhitespace = false := h c (List.mem_cons_self c cs)
    rw [lexGroup, if_pos hc, ih (c :: acc) (fun x hx => h x (List.mem_cons_of_mem c hx))]
    simp

/-- A nonempty whitespace-free lexeme survives the sub-lexer as a single
`Text` sub-token equal to itself. -/
theorem movementLex_nonWs (s : String) (h1 : s.data ≠ [])
    (h2 : ∀ c ∈ s.data, c.isWhitespace = false) :
    movementLex s = [⟨s, Category.Text⟩] := by
  unfold movementLex
  cases hs : s.data with
  | nil => exact absurd hs h1
  | cons c cs =>
    have hc : c.isWhitespace = false := h2 c (by rw [hs]; exact List.mem_cons_self c cs)
    show lexGroup c.isWhitespace [c] cs = _
    rw [hc, lexGroup_nonWs cs [c] (fun x hx => h2 x (by rw [hs]; exact List.mem_cons_of_mem c hx))]
    have : (⟨c :: cs⟩ : String) = s := by
      cases s
      simp at hs
      simp [hs]
    simp [this]

/-- A successful association-list lookup locates a stored entry. -/
theorem mapLookup_mem {k : String} {p : Position} :
    ∀ {m : List (String × Position)}, mapLookup k m = some p → (k, p) ∈ m := by
  intro m
  induction m with
  | nil => intro h; simp [mapLookup] at h
  | cons e t ih =>
    intro h
    by_cases he : e.1 = k
    · rw [mapLookup, if_pos he] at h
      have : e = (k, p) := by
        cases e
        simp_all
      rw [← this]
      exact List.mem_cons_self e t
    · rw [mapLookup, if_neg he] at h
      exact List.mem_cons_of_mem e (ih h)

/-- Membership after a `HashMap::insert`: the new binding, or an old one
with a different key. -/
theorem mem_mapInsert {e : String × Position} {k : String} {v : Position}
    {m : List (String × Position)} (h : e ∈ mapInsert k v m) :
    e = (k, v) ∨ e ∈ m := by
  rcases List.mem_cons.1 h with h' | h'
  · exact Or.inl h'
  · exact Or.inr (List.mem_filter.1 h').1

/-- `HashMap::insert` keeps the keys of `tag_positions` pairwise
distinct. -/
theorem mapInsert_keys_nodup (k : String) (v : Position)
    {m : List (String × Position)} (h : (m.map Prod.fst).Nodup) :
    ((mapInsert k v m).map Prod.fst).Nodup := by
  rw [mapInsert, List.map_cons, List.nodup_cons]
  constructor
  · intro hk
    rcases List.mem_map.1 hk with ⟨e, he, hek⟩
    have := (List.mem_filter.1 he).2
    rw [hek] at this
    simp at this
  · exact h.sublist ((List.filter_sublist m).map Prod.fst)

/-- Every `processSubtoken` step has one of two shapes: the whitespace
clause, or the tagging clause for some tag decision; and a granted tag is
only granted on a visible line — in line mode additionally only at or
past the cursor's line. -/
theorem processSubtoken_cases (lm : Bool) (cl : Nat) (vr : LineRange)
    (tok : Token) (st : PassState) (sub : Token) :
    (sub.category = Category.Whitespace ∧
      processSubtoken lm cl vr tok st sub =
        { st with
          current_position :=
            st.current_position.add (Distance.from_str sub.lexeme),
          jump_tokens := st.jump_tokens ++ [sub] }) ∨
    (sub.category ≠ Category.Whitespace ∧
      ∃ tag i j,
        processSubtoken lm cl vr tok st sub =
          { current_position :=
              ⟨st.current_position.line,
               st.current_position.offset + utf8Len sub.lexeme⟩,
            tagIdx := i, singleIdx := j,
            tag_positions :=
              match tag with
              | some t => mapInsert t st.current_position st.tag_positions
              | none => st.tag_positions,
            jump_tokens := st.jump_tokens ++
              match tag with
              | some t =>
                [⟨t, Category.Keyword⟩,
                 ⟨⟨sub.lexeme.data.drop (utf8Len t)⟩, Category.Text⟩]
              | none => [⟨sub.lexeme, tok.category⟩] } ∧
        (tag = none ∨
          (vr.includes st.current_position.line = true ∧
            (lm = true → cl ≤ st.current_position.line)))) := by
  by_cases hws : sub.category = Category.Whitespace
  · exact Or.inl ⟨hws, by simp [processSubtoken, hws]⟩
  · refine Or.inr ⟨hws, ?_⟩
    by_cases hv : vr.includes st.current_position.line = false
    · exact ⟨none, st.tagIdx, st.singleIdx,
        by simp [processSubtoken, hws, hv], Or.inl rfl⟩
    · have hv' : vr.includes st.current_position.line = true := by
        cases hb : vr.includes st.current_position.line
        · exact absurd hb hv
        · rfl
      by_cases hlm : lm = true
      · by_cases hc : cl ≤ st.current_position.line
        · exact ⟨singleTag st.singleIdx, st.tagIdx, st.singleIdx + 1,
            by simp [processSubtoken, hws, hv, hlm, hc],
            Or.inr ⟨hv', fun _ => hc⟩⟩
        · exact ⟨none, st.tagIdx, st.singleIdx,
            by simp [processSubtoken, hws, hv, hlm, hc], Or.inl rfl⟩
      · by_cases hlen : 1 < utf8Len sub.lexeme
        · exact ⟨some (tagOfIndex st.tagIdx), st.tagIdx + 1, st.singleIdx,
            by simp [processSubtoken, hws, hv, hlm, hlen],
            Or.inr ⟨hv', fun h => absurd h hlm⟩⟩
        · exact ⟨none, st.tagIdx, st.singleIdx,
            by simp [processSubtoken, hws, hv, hlm, hlen], Or.inl rfl⟩

/-- One step keeps every `tag_positions` entry on a visible line, and in
line mode at or past the cursor's line. -/
theorem entries_inv_step (lm : Bool) (cl : Nat) (vr : LineRange)
    (tok : Token) (st : PassState) (sub : Token)
    (h : ∀ e ∈ st.tag_positions,
      vr.includes e.2.line = true ∧ (lm = true → cl ≤ e.2.line)) :
    ∀ e ∈ (processSubtoken lm cl vr tok st sub).tag_positions,
      vr.includes e.2.line = true ∧ (lm = true → cl ≤ e.2.line) := by
  rcases processSubtoken_cases lm cl vr tok st sub with
    ⟨_, heq⟩ | ⟨_, tag, i, j, heq, hcond⟩
  · rw [heq]
    exact h
  · rw [heq]
    cases tag with
    | none => exact h
    | some t =>
      intro e he
      rcases mem_mapInsert he with he' | he'
      · rcases hcond with hnone | ⟨hvis, hcur⟩
        · exact absurd hnone (by simp)
        · rw [he']
          exact ⟨hvis, hcur⟩
      · exact h e he'

/-- Every `tag_positions` entry produced by a pass lies on a visible line
and, in line mode, at or past the cursor's line. -/
theorem tokens_entries (m : JumpMode) (b : Buffer) (r : LineRange) :
    ∀ e ∈ (JumpMode.tokens m b r).tag_positions,
      r.includes e.2.line = true ∧
        (m.line_mode = true → b.cursor.line ≤ e.2.line) := by
  have key := foldl_inv
    (f := processToken m.line_mode b.cursor.line r)
    (P := fun st : PassState => ∀ e ∈ st.tag_positions,
      r.includes e.2.line = true ∧ (m.line_mode = true → b.cursor.line ≤ e.2.line))
    (fun st tok hst =>
      foldl_inv
        (f := processSubtoken m.line_mode b.cursor.line r tok)
        (P := fun st : PassState => ∀ e ∈ st.tag_positions,
          r.includes e.2.line = true ∧ (m.line_mode = true → b.cursor.line ≤ e.2.line))
        (fun st' sub hst' => entries_inv_step m.line_mode b.cursor.line r tok st' sub hst')
        (movementLex tok.lexeme) st hst)
    b.tokens initialPassState (by simp [initialPassState])
  exact key

/-- One step preserves: the keys of `tag_positions` are pairwise
distinct, and each entry's tag has been emitted as a `Keyword` token. -/
theorem keys_rendered_step (lm : Bool) (cl : Nat) (vr : LineRange)
    (tok : Token) (st : PassState) (sub : Token)
    (h : (st.tag_positions.map Prod.fst).Nodup ∧
      ∀ e ∈ st.tag_positions, Token.mk e.1 Category.Keyword ∈ st.jump_tokens) :
    ((processSubtoken lm cl vr tok st sub).tag_positions.map Prod.fst).Nodup ∧
    ∀ e ∈ (processSubtoken lm cl vr tok st sub).tag_positions,
      Token.mk e.1 Category.Keyword ∈
        (processSubtoken lm cl vr tok st sub).jump_tokens := by
  obtain ⟨h1, h2⟩ := h
  rcases processSubtoken_cases lm cl vr tok st sub with
    ⟨_, heq⟩ | ⟨_, tag, i, j, heq, -⟩
  · rw [heq]
    exact ⟨h1, fun e he => List.mem_append_left _ (h2 e he)⟩
  · rw [heq]
    cases tag with
    | none => exact ⟨h1, fun e he => List.mem_append_left _ (h2 e he)⟩
    | some t =>
      refine ⟨mapInsert_keys_nodup t st.current_position h1, fun e he => ?_⟩
      rcases mem_mapInsert he with he' | he'
      · rw [he']
        exact List.mem_append_right _ (List.mem_cons_self _ _)
      · exact List.mem_append_left _ (h2 e he')

/-- If a subtoken-loop segment ends with `tag_positions` empty, it never
inserted, so its output extends the previous output by exactly its
input's text. -/
theorem foldSubs_untagged_concat (lm : Bool) (cl : Nat) (vr : LineRange)
    (tok : Token) (subs : List Token) :
    ∀ st : PassState,
      (subs.foldl (processSubtoken lm cl vr tok) st).tag_positions = [] →
      st.tag_positions = [] ∧
      lexemeChars (subs.foldl (processSubtoken lm cl vr tok) st).jump_tokens =
        lexemeChars st.jump_tokens ++ lexemeChars subs := by
  induction subs with
  | nil => intro st h; exact ⟨h, by simp [lexemeChars]⟩
  | cons sub rest ih =>
    intro st h
    rw [List.foldl_cons] at h ⊢
    obtain ⟨hmid, hcat⟩ := ih (processSubtoken lm cl vr tok st sub) h
    rcases processSubtoken_cases lm cl vr tok st sub with
      ⟨_, heq⟩ | ⟨_, tag, i, j, heq, -⟩
    · rw [heq] at hmid hcat ⊢
      refine ⟨hmid, ?_⟩
      rw [hcat]
      simp [lexemeChars]
    · cases tag with
      | some t =>
        rw [heq] at hmid
        simp [mapInsert] at hmid
      | none =>
        rw [heq] at hmid hcat ⊢
        refine ⟨hmid, ?_⟩
        rw [hcat]
        simp [lexemeChars]

/-- Token-loop version of `foldSubs_untagged_concat`, via the sub-lexer
round trip. -/
theorem foldTokens_untagged_concat (lm : Bool) (cl : Nat) (vr : LineRange)
    (toks : List Token) :
    ∀ st : PassState,
      (toks.foldl (processToken lm cl vr) st).tag_positions = [] →
      st.tag_positions = [] ∧
      lexemeChars (toks.foldl (processToken lm cl vr) st).jump_tokens =
        lexemeChars st.jump_tokens ++ lexemeChars toks := by
  induction toks with
  | nil => intro st h; exact ⟨h, by simp [lexemeChars]⟩
  | cons tok rest ih =>
    intro st h
    rw [List.foldl_cons] at h ⊢
    obtain ⟨hmid, hcat⟩ := ih (processToken lm cl vr st tok) h
    simp only [processToken] at hmid
    obtain ⟨hst, hcat2⟩ :=
      foldSubs_untagged_concat lm cl vr tok (movementLex tok.lexeme) st hmid
    refine ⟨hst, ?_⟩
    rw [hcat]
    simp only [processToken]
    rw [hcat2, movementLex_chars, lexemeChars_cons, List.append_assoc]

/-- Over nonempty whitespace-free tokens the running position keeps its
line and accumulates the tokens' UTF-8 byte lengths into the offset. -/
theorem foldTokens_offset (lm : Bool) (cl : Nat) (vr : LineRange)
    (toks : List Token) :
    ∀ st : PassState,
      (∀ t ∈ toks, t.lexeme.data ≠ [] ∧ ∀ c ∈ t.lexeme.data, c.isWhitespace = false) →
      (toks.foldl (processToken lm cl vr) st).current_position =
        ⟨st.current_position.line,
         st.current_position.offset + (toks.map (fun t => utf8Len t.lexeme)).sum⟩ := by
  induction toks with
  | nil =>
    intro st _
    simp
  | cons tok rest ih =>
    intro st h
    rw [List.foldl_cons]
    have hh := h tok (List.mem_cons_self tok rest)
    have hlex := movementLex_nonWs tok.lexeme hh.1 hh.2
    have hstep : processToken lm cl vr st tok =
        processSubtoken lm cl vr tok st ⟨tok.lexeme, Category.Text⟩ := by
      simp only [processToken, hlex, List.foldl_cons, List.foldl_nil]
    rw [hstep, ih _ (fun x hx => h x (List.mem_cons_of_mem tok hx))]
    have hpos : (processSubtoken lm cl vr tok st
        ⟨tok.lexeme, Category.Text⟩).current_position =
        ⟨st.current_position.line,
         st.current_position.offset + utf8Len tok.lexeme⟩ := by
      rcases processSubtoken_cases lm cl vr tok st ⟨tok.lexeme, Category.Text⟩ with
        ⟨hws, -⟩ | ⟨-, tag, i, j, heq, -⟩
      · simp at hws
      · rw [heq]
    rw [hpos]
    simp [Nat.add_assoc]

/-- Evaluating one step in anywhere mode on a visible, tag-eligible
subtoken: the tag is carved out character-wise and recorded. -/
theorem processSubtoken_anywhere_tagged (cl : Nat) (vr : LineRange)
    (tok : Token) (st : PassState) (sub : Token)
    (hws : sub.category ≠ Category.Whitespace)
    (hv : vr.includes st.current_position.line = true)
    (hlen : 1 < utf8Len sub.lexeme) :
    processSubtoken false cl vr tok st sub =
      { current_position :=
          ⟨st.current_position.line,
           st.current_position.offset + utf8Len sub.lexeme⟩,
        tagIdx := st.tagIdx + 1,
        singleIdx := st.singleIdx,
        tag_positions :=
          mapInsert (tagOfIndex st.tagIdx) st.current_position st.tag_positions,
        jump_tokens := st.jump_tokens ++
          [⟨tagOfIndex st.tagIdx, Category.Keyword⟩,
           ⟨⟨sub.lexeme.data.drop (utf8Len (tagOfIndex st.tagIdx))⟩,
            Category.Text⟩] } := by
  simp [processSubtoken, hws, hv, hlen]

/-- C1 (amended): for every input token stream and visible range, if the
pass issues no tags (`tag_positions` ends empty) then concatenating the
display tokens' lexemes reproduces the input text.  The universal
round-trip of the original claim is false, because an issued tag
overwrites its sub-token's leading characters (see the counterexample). -/
theorem c1_concat_preserved_when_untagged (m : JumpMode) (b : Buffer)
    (r : LineRange)
    (h : (JumpMode.tokens m b r).tag_positions = []) :
    lexemeChars (JumpMode.tokens m b r).jump_tokens = lexemeChars b.tokens := by
  obtain ⟨-, hcat⟩ := foldTokens_untagged_concat m.line_mode b.cursor.line r
    b.tokens initialPassState h
  show lexemeChars (b.tokens.foldl
    (processToken m.line_mode b.cursor.line r) initialPassState).jump_tokens =
    lexemeChars b.tokens
  rw [hcat]
  simp [initialPassState, lexemeChars]

/-- C1 counterexample: in anywhere mode the single token "class" is
tagged "aa", so the output concatenates to "aaass", not "class" — the
claimed universal round-trip is false. -/
theorem c1_counterexample :
    lexemeChars (JumpMode.tokens { JumpMode.new with line_mode := false }
        ⟨[⟨"class", Category.Keyword⟩], ⟨0, 0⟩⟩ ⟨0, 100⟩).jump_tokens ≠
      lexemeChars [(⟨"class", Category.Keyword⟩ : Token)] := by
  decide

/-- C1 witness: a line-mode pass whose only token lies before the cursor
issues no tags, and its output concatenates back to the input text. -/
theorem c1_witness :
    (JumpMode.tokens JumpMode.new ⟨[⟨"class", Category.Keyword⟩], ⟨5, 0⟩⟩
      ⟨0, 100⟩).tag_positions = [] ∧
    lexemeChars (JumpMode.tokens JumpMode.new
        ⟨[⟨"class", Category.Keyword⟩], ⟨5, 0⟩⟩ ⟨0, 100⟩).jump_tokens =
      lexemeChars [(⟨"class", Category.Keyword⟩ : Token)] :=
  ⟨by decide, c1_concat_preserved_when_untagged JumpMode.new
    ⟨[⟨"class", Category.Keyword⟩], ⟨5, 0⟩⟩ ⟨0, 100⟩ (by decide)⟩

/-- C2 (amended): on `[Keyword:"class", Whitespace:" ", Identifier:"Amp"]`
in anywhere mode with everything visible and cursor at line 0, the pass
returns `[Keyword:"aa", Text:"ass", Whitespace:" ", Keyword:"ab",
Text:"p"]`, and afterwards `map_tag "ab"` is the position line 0 offset 6
(the claimed offset 7 is off by one: "Amp" starts at offset 6). -/
theorem c2_anywhere_example_output_and_position :
    (JumpMode.tokens { JumpMode.new with line_mode := false }
        ⟨[⟨"class", Category.Keyword⟩, ⟨" ", Category.Whitespace⟩,
          ⟨"Amp", Category.Identifier⟩], ⟨0, 0⟩⟩ ⟨0, 100⟩).jump_tokens =
      [⟨"aa", Category.Keyword⟩, ⟨"ass", Category.Text⟩,
       ⟨" ", Category.Whitespace⟩, ⟨"ab", Category.Keyword⟩,
       ⟨"p", Category.Text⟩] ∧
    (JumpMode.afterPass { JumpMode.new with line_mode := false }
        (JumpMode.tokens { JumpMode.new with line_mode := false }
          ⟨[⟨"class", Category.Keyword⟩, ⟨" ", Category.Whitespace⟩,
            ⟨"Amp", Category.Identifier⟩], ⟨0, 0⟩⟩ ⟨0, 100⟩)).map_tag "ab" =
      some ⟨0, 6⟩ := by
  decide

/-- C2 counterexample: after the example pass, `map_tag "ab"` is not
`some {line 0, offset 7}` as claimed — it is `some {line 0, offset 6}`. -/
theorem c2_counterexample :
    (JumpMode.afterPass { JumpMode.new with line_mode := false }
        (JumpMode.tokens { JumpMode.new with line_mode := false }
          ⟨[⟨"class", Category.Keyword⟩, ⟨" ", Category.Whitespace⟩,
            ⟨"Amp", Category.Identifier⟩], ⟨0, 0⟩⟩ ⟨0, 100⟩)).map_tag "ab" ≠
      some ⟨0, 7⟩ := by
  decide

/-- C3 (amended): in line mode every recorded tag position lies at or
after the cursor's line (sub-tokens on earlier lines stay untagged); but
the code requests a tag for every eligible non-whitespace sub-token, so a
single line can receive several tags (see the counterexample). -/
theorem c3_line_mode_tags_only_at_or_after_cursor (m : JumpMode)
    (b : Buffer) (r : LineRange) (k : String) (p : Position)
    (hlm : m.line_mode = true)
    (h : mapLookup k (JumpMode.tokens m b r).tag_positions = some p) :
    b.cursor.line ≤ p.line :=
  (tokens_entries m b r (k, p) (mapLookup_mem h)).2 hlm

/-- C3 counterexample: a line-mode pass over "ab cd" (one visible line,
cursor at line 0) issues two tags, "a" and "b", both on line 0 — not at
most one tag per visible line. -/
theorem c3_counterexample :
    (JumpMode.afterPass JumpMode.new
        (JumpMode.tokens JumpMode.new ⟨[⟨"ab cd", Category.Text⟩], ⟨0, 0⟩⟩
          ⟨0, 100⟩)).map_tag "a" = some ⟨0, 0⟩ ∧
    (JumpMode.afterPass JumpMode.new
        (JumpMode.tokens JumpMode.new ⟨[⟨"ab cd", Category.Text⟩], ⟨0, 0⟩⟩
          ⟨0, 100⟩)).map_tag "b" = some ⟨0, 3⟩ := by
  decide

/-- C3 witness: the first line-mode tag "a" on `[Keyword:"class"]` with
cursor at line 0 is recorded at line 0, at or after the cursor's line. -/
theorem c3_witness :
    JumpMode.new.line_mode = true ∧
    mapLookup "a" (JumpMode.tokens JumpMode.new
      ⟨[⟨"class", Category.Keyword⟩], ⟨0, 0⟩⟩ ⟨0, 100⟩).tag_positions =
      some ⟨0, 0⟩ ∧
    (Buffer.mk [⟨"class", Category.Keyword⟩] ⟨0, 0⟩).cursor.line ≤
      (Position.mk 0 0).line :=
  ⟨rfl, by decide,
    c3_line_mode_tags_only_at_or_after_cursor JumpMode.new
      ⟨[⟨"class", Category.Keyword⟩], ⟨0, 0⟩⟩ ⟨0, 100⟩ "a" ⟨0, 0⟩ rfl
      (by decide)⟩

/-- C4 (amended): after a pass no two `tag_positions` entries share a
key, and every entry's tag appears in the output as a `Keyword` token;
the converse direction of the claim fails because untagged sub-tokens
inherit their source token's category, which may itself be `Keyword`
(see the counterexample). -/
theorem c4_tag_entries_unique_and_rendered (m : JumpMode) (b : Buffer)
    (r : LineRange) :
    (((JumpMode.tokens m b r).tag_positions).map Prod.fst).Nodup ∧
    ∀ e ∈ (JumpMode.tokens m b r).tag_positions,
      Token.mk e.1 Category.Keyword ∈ (JumpMode.tokens m b r).jump_tokens :=
  foldl_inv
    (f := processToken m.line_mode b.cursor.line r)
    (P := fun st : PassState =>
      (st.tag_positions.map Prod.fst).Nodup ∧
      ∀ e ∈ st.tag_positions,
        Token.mk e.1 Category.Keyword ∈ st.jump_tokens)
    (fun st tok hst =>
      foldl_inv
        (f := processSubtoken m.line_mode b.cursor.line r tok)
        (P := fun st : PassState =>
          (st.tag_positions.map Prod.fst).Nodup ∧
          ∀ e ∈ st.tag_positions,
            Token.mk e.1 Category.Keyword ∈ st.jump_tokens)
        (fun st' sub h' =>
          keys_rendered_step m.line_mode b.cursor.line r tok st' sub h')
        (movementLex tok.lexeme) st hst)
    b.tokens initialPassState (by simp [initialPassState])

/-- C4 counterexample: with the cursor at line 1 in line mode, the
visible `Keyword:"class"` on line 0 is emitted unchanged as a `Keyword`
token while `tag_positions` stays empty — a Keyword-category output token
with no matching entry. -/
theorem c4_counterexample :
    (JumpMode.tokens JumpMode.new ⟨[⟨"class", Category.Keyword⟩], ⟨1, 0⟩⟩
      ⟨0, 100⟩).jump_tokens = [⟨"class", Category.Keyword⟩] ∧
    (JumpMode.tokens JumpMode.new ⟨[⟨"class", Category.Keyword⟩], ⟨1, 0⟩⟩
      ⟨0, 100⟩).tag_positions = [] := by
  decide

/-- C4 witness: in the anywhere-mode "class" pass, the keys are distinct
and the recorded entry ("aa", {0,0}) has its Keyword token in the
output. -/
theorem c4_witness :
    (((JumpMode.tokens { JumpMode.new with line_mode := false }
        ⟨[⟨"class", Category.Keyword⟩], ⟨0, 0⟩⟩
        ⟨0, 100⟩).tag_positions).map Prod.fst).Nodup ∧
    Token.mk "aa" Category.Keyword ∈
      (JumpMode.tokens { JumpMode.new with line_mode := false }
        ⟨[⟨"class", Category.Keyword⟩], ⟨0, 0⟩⟩ ⟨0, 100⟩).jump_tokens :=
  ⟨(c4_tag_entries_unique_and_rendered { JumpMode.new with line_mode := false }
      ⟨[⟨"class", Category.Keyword⟩], ⟨0, 0⟩⟩ ⟨0, 100⟩).1,
   (c4_tag_entries_unique_and_rendered { JumpMode.new with line_mode := false }
      ⟨[⟨"class", Category.Keyword⟩], ⟨0, 0⟩⟩ ⟨0, 100⟩).2 ("aa", ⟨0, 0⟩)
     (by decide)⟩

/-- C5 (amended): for non-whitespace sub-tokens the running offset
advances by the sub-token's UTF-8 byte length (Rust `str::len`), not its
character count; over a stream of nonempty whitespace-free tokens the
final position accumulates exactly those byte lengths.  Positions
therefore drift from character counts on multi-byte text (see the
counterexample). -/
theorem c5_offset_advances_by_utf8_length (m : JumpMode) (b : Buffer)
    (r : LineRange)
    (h : ∀ t ∈ b.tokens,
      t.lexeme.data ≠ [] ∧ ∀ c ∈ t.lexeme.data, c.isWhitespace = false) :
    (JumpMode.tokens m b r).current_position =
      ⟨0, (b.tokens.map (fun t => utf8Len t.lexeme)).sum⟩ := by
  show (b.tokens.foldl (processToken m.line_mode b.cursor.line r)
    initialPassState).current_position = _
  rw [foldTokens_offset m.line_mode b.cursor.line r b.tokens initialPassState h]
  simp [initialPassState]

/-- C5 counterexample: after "eéd" (3 characters, 4 bytes) and a space,
the tag "ab" is recorded at offset 5 — the byte count — whereas counting
code points would give offset 4. -/
theorem c5_counterexample :
    (JumpMode.afterPass { JumpMode.new with line_mode := false }
        (JumpMode.tokens { JumpMode.new with line_mode := false }
          ⟨[⟨"eéd", Category.Text⟩, ⟨" ", Category.Whitespace⟩,
            ⟨"ab", Category.Text⟩], ⟨0, 0⟩⟩ ⟨0, 100⟩)).map_tag "ab" =
      some ⟨0, 5⟩ ∧
    ("eéd".data.length + " ".data.length = 4) ∧
    ((⟨0, 5⟩ : Position) ≠ ⟨0, 4⟩) := by
  decide

/-- C5 witness: one token "eé" (2 characters, 3 bytes) leaves the running
position at offset 3. -/
theorem c5_witness :
    (∀ t ∈ [(⟨"eé", Category.Text⟩ : Token)],
      t.lexeme.data ≠ [] ∧ ∀ c ∈ t.lexeme.data, c.isWhitespace = false) ∧
    (JumpMode.tokens JumpMode.new ⟨[⟨"eé", Category.Text⟩], ⟨0, 0⟩⟩
      ⟨0, 100⟩).current_position = ⟨0, 3⟩ := by
  refine ⟨by decide, ?_⟩
  have h := c5_offset_advances_by_utf8_length JumpMode.new
    ⟨[⟨"eé", Category.Text⟩], ⟨0, 0⟩⟩ ⟨0, 100⟩ (by decide)
  exact h.trans (by decide)

/-- C6: carving the 2-character tag out of an anywhere-mode sub-token
works in code-point units: for any nonempty whitespace-free lexeme of
byte length above 1 — including ones with a multi-byte character among
the first two code points — the pass totally evaluates to the tag
followed by the characters after the first two code points. -/
theorem c6_tag_carve_is_char_based (m : JumpMode) (b : Buffer)
    (r : LineRange) (s : String) (cat : Category)
    (hm : m.line_mode = false)
    (hb : b.tokens = [⟨s, cat⟩])
    (hs : s.data ≠ []) (hw : ∀ c ∈ s.data, c.isWhitespace = false)
    (hlen : 1 < utf8Len s)
    (hr : r.includes 0 = true) :
    (JumpMode.tokens m b r).jump_tokens =
      [⟨"aa", Category.Keyword⟩, ⟨⟨s.data.drop 2⟩, Category.Text⟩] := by
  have hlex := movementLex_nonWs s hs hw
  have hstep := processSubtoken_anywhere_tagged b.cursor.line r ⟨s, cat⟩
    initialPassState ⟨s, Category.Text⟩ (by simp) hr (by simpa using hlen)
  show (b.tokens.foldl (processToken m.line_mode b.cursor.line r)
    initialPassState).jump_tokens = _
  rw [hb, hm, List.foldl_cons, List.foldl_nil]
  simp only [processToken, hlex, List.foldl_cons, List.foldl_nil]
  rw [hstep]
  simp [initialPassState, show tagOfIndex 0 = "aa" from rfl,
    show utf8Len "aa" = 2 from rfl]

/-- C6 witness: "eéditor", whose second code point is multi-byte, is
split into the tag "aa" and the remainder "ditor". -/
theorem c6_witness :
    ("eéditor".data ≠ [] ∧ 1 < utf8Len "eéditor") ∧
    (JumpMode.tokens { JumpMode.new with line_mode := false }
        ⟨[⟨"eéditor", Category.Text⟩], ⟨0, 0⟩⟩ ⟨0, 100⟩).jump_tokens =
      [⟨"aa", Category.Keyword⟩, ⟨"ditor", Category.Text⟩] := by
  refine ⟨by decide, ?_⟩
  have h := c6_tag_carve_is_char_based { JumpMode.new with line_mode := false }
    ⟨[⟨"eéditor", Category.Text⟩], ⟨0, 0⟩⟩ ⟨0, 100⟩ "eéditor" Category.Text
    rfl rfl (by decide) (by decide) (by decide) (by decide)
  exact h.trans (by decide)

/-- C7: every position recorded in `tag_positions` during a pass lies on
a line included in the visible range — off-screen sub-tokens contribute
no entry. -/
theorem c7_tag_positions_within_visible_range (m : JumpMode) (b : Buffer)
    (r : LineRange) (k : String) (p : Position)
    (h : mapLookup k (JumpMode.tokens m b r).tag_positions = some p) :
    r.includes p.line = true :=
  (tokens_entries m b r (k, p) (mapLookup_mem h)).1

/-- C7 witness: with viewport lines [1,2), only "Amp" on line 1 is
tagged, and its recorded line 1 is inside the range. -/
theorem c7_witness :
    mapLookup "a" (JumpMode.tokens JumpMode.new
      ⟨[⟨"class", Category.Keyword⟩, ⟨"\n  ", Category.Whitespace⟩,
        ⟨"Amp\n", Category.Identifier⟩, ⟨"data", Category.Identifier⟩],
       ⟨0, 0⟩⟩ ⟨1, 2⟩).tag_positions = some ⟨1, 2⟩ ∧
    (LineRange.mk 1 2).includes (Position.mk 1 2).line = true :=
  ⟨by decide,
    c7_tag_positions_within_visible_range JumpMode.new
      ⟨[⟨"class", Category.Keyword⟩, ⟨"\n  ", Category.Whitespace⟩,
        ⟨"Amp\n", Category.Identifier⟩, ⟨"data", Category.Identifier⟩],
       ⟨0, 0⟩⟩ ⟨1, 2⟩ "a" ⟨1, 2⟩ (by decide)⟩

/-- C8: `tag_positions` is rebuilt from empty on every pass, so whatever
a previous pass recorded, a pass over an empty token stream leaves
`tag_positions` empty. -/
theorem c8_empty_stream_clears_tag_positions (m : JumpMode) (b : Buffer)
    (r : LineRange) (cur : Position) (r' : LineRange) :
    (JumpMode.tokens (JumpMode.afterPass m (JumpMode.tokens m b r))
      ⟨[], cur⟩ r').tag_positions = [] := rfl

/-- C9: a pass reads the orchestrator state only through `line_mode` —
both generators are freshly constructed and `tag_positions` is cleared —
so any two states agreeing on `line_mode` produce identical display
tokens, tag assignments and final positions on the same inputs. -/
theorem c9_pass_depends_only_on_line_mode (m m' : JumpMode) (b : Buffer)
    (r : LineRange) (h : m.line_mode = m'.line_mode) :
    JumpMode.tokens m b r = JumpMode.tokens m' b r := by
  unfold JumpMode.tokens
  rw [h]

/-- C9 witness: a state carrying leftover input and stale tag positions
produces the same pass result as a fresh `JumpMode::new`. -/
theorem c9_witness :
    JumpMode.tokens
        { input := "zz", line_mode := true,
          select_mode := SelectModeOptions.None,
          tag_positions := [("zz", ⟨9, 9⟩)] }
        ⟨[⟨"class", Category.Keyword⟩], ⟨0, 0⟩⟩ ⟨0, 100⟩ =
      JumpMode.tokens JumpMode.new
        ⟨[⟨"class", Category.Keyword⟩], ⟨0, 0⟩⟩ ⟨0, 100⟩ :=
  c9_pass_depends_only_on_line_mode
    { input := "zz", line_mode := true,
      select_mode := SelectModeOptions.None,
      tag_positions := [("zz", ⟨9, 9⟩)] }
    JumpMode.new ⟨[⟨"class", Category.Keyword⟩], ⟨0, 0⟩⟩ ⟨0, 100⟩ rfl

/-- C10: `JumpMode::new` starts in line mode with empty input, no select
mode and no tag positions, and a fresh pass therefore draws from the
single-character generator: "class" receives the one-letter tag "a". -/
theorem c10_new_starts_in_line_mode :
    JumpMode.new.line_mode = true ∧ JumpMode.new.input = "" ∧
    JumpMode.new.select_mode = SelectModeOptions.None ∧
    JumpMode.new.tag_positions = [] ∧
    (JumpMode.tokens JumpMode.new ⟨[⟨"class", Category.Keyword⟩], ⟨0, 0⟩⟩
      ⟨0, 100⟩).jump_tokens =
      [⟨"a", Category.Keyword⟩, ⟨"lass", Category.Text⟩] := by
  decide
